import Mathlib

/-!
Verification of the phone-line billing contracts (`src/contract.py`).

The embedding translates the Python classes `Contract`, `MTMContract`,
`TermContract` and `PrepaidContract` into pure Lean functions over explicit
state records.  Python `float` money amounts are modelled as `ℚ` (all the
amounts appearing in the program — fees, deposits, whole minutes — are small
decimals on which float arithmetic is exact), call durations as `ℤ` seconds,
and month/year numbers as `ℤ`.  Methods that dereference `self.bill` while it
may still be `None` are modelled as `Option`-returning functions.
-/

/-- Modelled from the spec: the external `datetime.date` collaborator.  Only
the `year`, `month` and `day` fields are used by the contracts. -/
structure Date where
  year : ℤ
  month : ℤ
  day : ℤ
deriving DecidableEq, Repr

/-- Modelled from the spec: the external `Call` record; the contracts read
only its `duration` in seconds. -/
structure Call where
  duration : ℤ
deriving DecidableEq, Repr

/-- Rate-plan tag passed to `Bill.set_rates` (the Python code uses the
strings "MTM", "TERM" and "PREPAID"). -/
inductive BillType where
  | NONE
  | MTM
  | TERM
  | PREPAID
deriving DecidableEq, Repr

/-- Modelled from the spec: the external `Bill` collaborator, a per-month
cost accumulator exposing `set_rates`, `add_fixed_cost`, `add_billed_minutes`
(cost-accruing), `add_free_minutes` (non-cost-accruing, tracked separately)
and `get_cost`. -/
structure Bill where
  billType : BillType
  rate : ℚ
  fixedCost : ℚ
  billedMins : ℚ
  freeMins : ℚ
deriving DecidableEq, Repr

def Bill.set_rates (b : Bill) (t : BillType) (r : ℚ) : Bill :=
  { b with billType := t, rate := r }

def Bill.add_fixed_cost (b : Bill) (c : ℚ) : Bill :=
  { b with fixedCost := b.fixedCost + c }

def Bill.add_billed_minutes (b : Bill) (m : ℚ) : Bill :=
  { b with billedMins := b.billedMins + m }

/-- Modelled from the spec: free minutes are tracked separately and accrue no
cost. -/
def Bill.add_free_minutes (b : Bill) (m : ℚ) : Bill :=
  { b with freeMins := b.freeMins + m }

/-- Modelled from the spec: total cost of the bill — fixed costs plus the
cost-accruing billed minutes at the per-minute rate (free minutes are
non-cost-accruing). -/
def Bill.get_cost (b : Bill) : ℚ :=
  b.fixedCost + b.billedMins * b.rate

/-- A fresh, empty bill for a new cycle. -/
def Bill.empty : Bill :=
  { billType := BillType.NONE, rate := 0, fixedCost := 0, billedMins := 0,
    freeMins := 0 }

/-! Constants of `src/contract.py`. -/

def MTM_MONTHLY_FEE : ℚ := 50.00
def TERM_MONTHLY_FEE : ℚ := 20.00
def TERM_DEPOSIT : ℚ := 300.00
def TERM_MINS : ℚ := 100
def MTM_MINS_COST : ℚ := 0.05
def TERM_MINS_COST : ℚ := 0.1
def PREPAID_MINS_COST : ℚ := 0.025

/-- Computes `ceil(duration / 60.0)`: the seconds-to-minutes conversion used by every
`bill_call` implementation. -/
def ceilMins (duration : ℤ) : ℤ :=
  ⌈(duration : ℚ) / 60⌉

/-! The abstract base class `Contract` (state shared with `MTMContract`).

`start` becomes `None` when the base `cancel_contract` runs, hence
`Option Date`; `bill` starts as `None` until a `new_month` binds one. -/

structure Contract where
  start : Option Date
  bill : Option Bill
deriving DecidableEq, Repr

/-- Python `Contract.__init__`: store the start date; the bill starts unbound. -/
def Contract.init (start : Date) : Contract :=
  { start := some start, bill := none }

/-- Python `Contract.bill_call`: add `ceil(duration/60)` billed minutes to the bound
bill.  Dereferencing an unbound bill is a `None`-crash, modelled by `none`. -/
def Contract.bill_call (c : Contract) (call : Call) : Option Contract :=
  match c.bill with
  | none => none
  | some b =>
      some { c with bill := some (b.add_billed_minutes ((ceilMins call.duration : ℤ) : ℚ)) }

/-- Python `Contract.cancel_contract`: null the start date and return the bill's
total cost together with the post-state. -/
def Contract.cancel_contract (c : Contract) : Option (ℚ × Contract) :=
  match c.bill with
  | none => none
  | some b => some (b.get_cost, { c with start := none })

/-! The class `MTMContract`: adds no state; overrides only `new_month`. -/

structure MTMContract where
  toContract : Contract
deriving DecidableEq, Repr

def MTMContract.init (start : Date) : MTMContract :=
  { toContract := Contract.init start }

/-- Python `MTMContract.new_month`: bind the bill, add the flat monthly fee and set
the MTM rates. -/
def MTMContract.new_month (c : MTMContract) (_month _year : ℤ) (bill : Bill) :
    MTMContract :=
  { c with toContract :=
      { c.toContract with
          bill := some ((bill.add_fixed_cost MTM_MONTHLY_FEE).set_rates
            BillType.MTM MTM_MINS_COST) } }

/-! The class `TermContract`.

The fields `_curr_month` and `_curr_year` are not assigned by `__init__`, only by
`new_month`; reading them before that is an attribute error, hence
`Option ℤ`.  `TermContract` overrides `bill_call` and `cancel_contract`, and
its `cancel_contract` never clears `start`, so `start` stays a plain
`Date`. -/

structure TermContract where
  start : Date
  bill : Option Bill
  end_date : Date
  _free : ℚ
  _curr_month : Option ℤ
  _curr_year : Option ℤ
deriving DecidableEq, Repr

/-- Python `TermContract.__init__`: store start and end dates and the free-minute
allotment. -/
def TermContract.init (start end_date : Date) : TermContract :=
  { start := start, bill := none, end_date := end_date, _free := TERM_MINS,
    _curr_month := none, _curr_year := none }

/-- Python `TermContract.new_month`: bind the bill; add the deposit exactly when the
given month and year equal the contract's start month and year; add the
monthly fee; set the TERM rates; reset the free minutes; record the cycle. -/
def TermContract.new_month (c : TermContract) (month year : ℤ) (bill : Bill) :
    TermContract :=
  let b1 := if month = c.start.month ∧ year = c.start.year
    then bill.add_fixed_cost TERM_DEPOSIT else bill
  let b2 := (b1.add_fixed_cost TERM_MONTHLY_FEE).set_rates BillType.TERM
    TERM_MINS_COST
  { c with
    bill := some b2,
    _free := TERM_MINS,
    _curr_month := some month,
    _curr_year := some year }

/-- Python `TermContract.bill_call`: if the call's minutes fit in the remaining free
minutes, log them all as free and decrement the counter; otherwise log
`ceil(_free / 60.0)` free minutes (the code's rounding of the free
remainder), bill the minutes beyond `_free`, and zero the counter. -/
def TermContract.bill_call (c : TermContract) (call : Call) :
    Option TermContract :=
  match c.bill with
  | none => none
  | some b =>
      let mins : ℤ := ceilMins call.duration
      if (mins : ℚ) ≤ c._free then
        some { c with
          bill := some (b.add_free_minutes (mins : ℚ)),
          _free := c._free - (mins : ℚ) }
      else
        let b1 := b.add_free_minutes ((⌈c._free / 60⌉ : ℤ) : ℚ)
        some { c with
          bill := some (b1.add_billed_minutes ((mins : ℚ) - c._free)),
          _free := 0 }

/-- Python `TermContract.cancel_contract`: refund the deposit exactly when the
recorded cycle year is at least the end date's year and the recorded cycle
month is strictly greater than the end date's month; the contract state is
not mutated. -/
def TermContract.cancel_contract (c : TermContract) :
    Option (ℚ × TermContract) :=
  match c.bill, c._curr_month, c._curr_year with
  | some b, some m, some y =>
      if y ≥ c.end_date.year ∧ m > c.end_date.month then
        some (b.get_cost - TERM_DEPOSIT, c)
      else
        some (b.get_cost, c)
  | _, _, _ => none

/-! The class `PrepaidContract`.

Overrides `new_month`, `bill_call` and `cancel_contract`; its
`cancel_contract` touches neither `start` nor the bill, so it is total and
`start` stays a plain `Date`. -/

structure PrepaidContract where
  start : Date
  bill : Option Bill
  balance : ℚ
deriving DecidableEq, Repr

/-- Python `PrepaidContract.__init__`: store the start date and the negation of the
balance argument (negative internal balance represents credit). -/
def PrepaidContract.init (start : Date) (balance : ℚ) : PrepaidContract :=
  { start := start, bill := none, balance := balance * (-1) }

/-- Python `PrepaidContract.new_month`: bind the bill, set the PREPAID rates,
subtract the 25 refill when the balance exceeds -10, then carry the
resulting balance onto the bill as a fixed cost. -/
def PrepaidContract.new_month (c : PrepaidContract) (_month _year : ℤ)
    (bill : Bill) : PrepaidContract :=
  let b1 := bill.set_rates BillType.PREPAID PREPAID_MINS_COST
  let bal := if c.balance > -10 then c.balance - 25 else c.balance
  { c with bill := some (b1.add_fixed_cost bal), balance := bal }

/-- Python `PrepaidContract.bill_call`: bill all rounded-up minutes, then
re-synchronize the balance with the bill's running total cost. -/
def PrepaidContract.bill_call (c : PrepaidContract) (call : Call) :
    Option PrepaidContract :=
  match c.bill with
  | none => none
  | some b =>
      let b1 := b.add_billed_minutes ((ceilMins call.duration : ℤ) : ℚ)
      some { c with bill := some b1, balance := b1.get_cost }

/-- Python `PrepaidContract.cancel_contract`: a positive balance is owed; zero or
negative balance (credit) is forfeited and 0 is owed.  No state is
mutated. -/
def PrepaidContract.cancel_contract (c : PrepaidContract) :
    ℚ × PrepaidContract :=
  (if c.balance > 0 then c.balance else 0, c)

/-! Helper lemmas for evaluating `ceilMins`. -/

/-- Characterization of `ceilMins` by integer bounds; used to evaluate it on
concrete durations. -/
theorem ceilMins_eq (d m : ℤ) (h1 : (m - 1) * 60 < d) (h2 : d ≤ m * 60) :
    ceilMins d = m := by
  unfold ceilMins
  rw [Int.ceil_eq_iff]
  constructor
  · rw [lt_div_iff₀ (by norm_num : (0 : ℚ) < 60)]
    exact_mod_cast h1
  · rw [div_le_iff₀ (by norm_num : (0 : ℚ) < 60)]
    exact_mod_cast h2

/-- A call of non-negative duration converts to a non-negative number of
minutes. -/
theorem ceilMins_nonneg (d : ℤ) (h : 0 ≤ d) : 0 ≤ ceilMins d := by
  unfold ceilMins
  exact Int.ceil_nonneg (by positivity)

/-! Concrete fixtures reused by the evaluation theorems below. -/

def startDate : Date := { year := 2023, month := 1, day := 1 }

def endDate : Date := { year := 2025, month := 12, day := 1 }

/-- A term contract in its start cycle: `_free = 100` and the deposit plus
the monthly fee (320) are on the bill. -/
def tcStartCycle : TermContract :=
  (TermContract.init startDate endDate).new_month 1 2023 Bill.empty

/-- Claim C1: on a TermContract with exactly 100 free minutes remaining, a
6060-second (101-minute) call is claimed to log 100 free minutes and bill 1
minute.  The code instead logs `ceil(_free / 60.0) = ceil(100 / 60) = 2`
free minutes (it re-applies the seconds-to-minutes conversion to a value
already in minutes), while billing 1 minute and zeroing the counter.  This
theorem evaluates the code at that input: the bill ends with 2 free minutes,
1 billed minute, and `_free = 0`. -/
theorem C1_free_remainder_rounded_eval :
    (tcStartCycle.bill_call { duration := 6060 }).map
      (fun c => (c.bill.map (fun b => (b.freeMins, b.billedMins)), c._free))
      = some (some (2, 1), 0)
    ∧ some (some ((2 : ℚ), (1 : ℚ)), (0 : ℚ)) ≠ some (some (100, 1), 0) := by
  have h101 : ceilMins 6060 = 101 := ceilMins_eq 6060 101 (by norm_num) (by norm_num)
  have hceil : (⌈(100 : ℚ) / 60⌉ : ℤ) = 2 := by
    rw [Int.ceil_eq_iff]
    constructor <;> norm_num
  constructor
  · simp only [tcStartCycle, TermContract.init, TermContract.new_month,
      TermContract.bill_call, Bill.empty, Bill.add_fixed_cost, Bill.set_rates,
      Bill.add_free_minutes, Bill.add_billed_minutes, startDate, endDate,
      TERM_MINS, h101, hceil]
    norm_num
  · simp only [ne_eq, Option.some.injEq, Prod.mk.injEq]
    norm_num

/-- Claim C2: `TermContract.cancel_contract` refunds the 300.00 deposit iff
the recorded cycle year is ≥ the end date's year and the recorded cycle
month is strictly greater than the end date's month; otherwise (in
particular whenever the recorded month equals the end month) the full bill
cost is owed. -/
theorem C2_term_cancel_refund_iff (c : TermContract) (b : Bill) (m y : ℤ)
    (hb : c.bill = some b) (hm : c._curr_month = some m)
    (hy : c._curr_year = some y) :
    (c.cancel_contract = some (b.get_cost - TERM_DEPOSIT, c) ↔
      (y ≥ c.end_date.year ∧ m > c.end_date.month))
    ∧ (¬(y ≥ c.end_date.year ∧ m > c.end_date.month) →
      c.cancel_contract = some (b.get_cost, c))
    ∧ (m = c.end_date.month → c.cancel_contract = some (b.get_cost, c)) := by
  have hdep : TERM_DEPOSIT ≠ 0 := by norm_num [TERM_DEPOSIT]
  simp only [TermContract.cancel_contract, hb, hm, hy]
  by_cases h : y ≥ c.end_date.year ∧ m > c.end_date.month
  · rw [if_pos h]
    refine ⟨⟨fun _ => h, fun _ => rfl⟩, fun hc => absurd h hc, fun hm2 => ?_⟩
    exact absurd (hm2 ▸ h.2) (lt_irrefl _)
  · rw [if_neg h]
    refine ⟨⟨fun heq => ?_, fun hc => absurd hc h⟩, fun _ => rfl, fun _ => rfl⟩
    have h2 : b.get_cost = b.get_cost - TERM_DEPOSIT :=
      congrArg Prod.fst (Option.some.inj heq)
    exact absurd (by linarith [h2]) hdep

/-- A term contract whose recorded cycle is exactly its end month/year. -/
def tcEndMonth : TermContract :=
  { start := startDate, bill := some Bill.empty,
    end_date := { year := 2023, month := 6, day := 30 }, _free := 100,
    _curr_month := some 6, _curr_year := some 2023 }

/-- Witness for C2: cancelling in the end month itself owes the full bill
cost (no refund). -/
theorem C2_term_cancel_refund_iff_witness :
    tcEndMonth.cancel_contract = some (Bill.empty.get_cost, tcEndMonth) :=
  (C2_term_cancel_refund_iff tcEndMonth Bill.empty 6 2023 rfl rfl rfl).2.2 rfl

/-- Claim C3: at every `PrepaidContract.new_month`, 25 is subtracted from
the balance exactly when the pre-call balance is strictly greater than -10,
and in both cases the resulting balance is added to the new bill as a fixed
cost. -/
theorem C3_prepaid_new_month_refill (c : PrepaidContract) (m y : ℤ)
    (bill : Bill) :
    (c.balance > -10 → (c.new_month m y bill).balance = c.balance - 25)
    ∧ (c.balance ≤ -10 → (c.new_month m y bill).balance = c.balance)
    ∧ (c.new_month m y bill).bill.map Bill.fixedCost
        = some (bill.fixedCost + (c.new_month m y bill).balance) := by
  simp only [PrepaidContract.new_month, Bill.set_rates, Bill.add_fixed_cost,
    Option.map_some]
  by_cases h : c.balance > -10
  · rw [if_pos h]
    exact ⟨fun _ => rfl, fun hc => absurd h (not_lt.mpr hc), rfl⟩
  · rw [if_neg h]
    exact ⟨fun hc => absurd hc h, fun _ => rfl, rfl⟩

/-- A prepaid contract with internal balance 0 (constructed from input 0). -/
def pcZero : PrepaidContract := PrepaidContract.init startDate 0

/-- A prepaid contract with internal balance -50, i.e. 50 of credit
(constructed from input 50). -/
def pcCredit : PrepaidContract := PrepaidContract.init startDate 50

/-- Witness for C3: a balance of 0 (> -10) is refilled to -25; a balance of
-50 (≤ -10) is left unchanged. -/
theorem C3_prepaid_new_month_refill_witness :
    (pcZero.new_month 2 2023 Bill.empty).balance = pcZero.balance - 25
    ∧ (pcCredit.new_month 2 2023 Bill.empty).balance = pcCredit.balance := by
  refine ⟨(C3_prepaid_new_month_refill pcZero 2 2023 Bill.empty).1 ?_,
    (C3_prepaid_new_month_refill pcCredit 2 2023 Bill.empty).2.1 ?_⟩
  · norm_num [pcZero, PrepaidContract.init]
  · norm_num [pcCredit, PrepaidContract.init]

/-- Claim C4: `PrepaidContract.cancel_contract` returns the balance when it
is strictly positive, 0 when the balance is zero or negative, and its
return value is never negative. -/
theorem C4_prepaid_cancel_nonneg (c : PrepaidContract) :
    (c.balance > 0 → c.cancel_contract.1 = c.balance)
    ∧ (c.balance ≤ 0 → c.cancel_contract.1 = 0)
    ∧ 0 ≤ c.cancel_contract.1 := by
  simp only [PrepaidContract.cancel_contract]
  by_cases h : c.balance > 0
  · rw [if_pos h]
    exact ⟨fun _ => rfl, fun hc => absurd h (not_lt.mpr hc), le_of_lt h⟩
  · rw [if_neg h]
    exact ⟨fun hc => absurd hc h, fun _ => rfl, le_refl 0⟩

/-- A prepaid contract with positive internal balance 30, i.e. the customer
owes 30 (constructed from input -30). -/
def pcDebt : PrepaidContract := PrepaidContract.init startDate (-30)

/-- Witness for C4: a positive balance (30) is owed in full; a negative
balance (-50, credit) yields 0 owed. -/
theorem C4_prepaid_cancel_nonneg_witness :
    pcDebt.cancel_contract.1 = pcDebt.balance
    ∧ pcCredit.cancel_contract.1 = 0 := by
  refine ⟨(C4_prepaid_cancel_nonneg pcDebt).1 ?_,
    (C4_prepaid_cancel_nonneg pcCredit).2.1 ?_⟩
  · norm_num [pcDebt, PrepaidContract.init]
  · norm_num [pcCredit, PrepaidContract.init]

/-- Claim C5: the base `Contract.bill_call` (inherited by `MTMContract`)
adds exactly `ceil(duration / 60)` cost-accruing billed minutes to the
bound bill, leaves the free-minute total unchanged, and a 1-second call
converts to 1 billed minute. -/
theorem C5_base_bill_call_ceil (c : Contract) (b : Bill) (call : Call)
    (hb : c.bill = some b) ( _hd : 0 ≤ call.duration) :
    Contract.bill_call c call
      = some { c with
          bill := some (b.add_billed_minutes ((ceilMins call.duration : ℤ) : ℚ)) }
    ∧ (b.add_billed_minutes ((ceilMins call.duration : ℤ) : ℚ)).billedMins
        = b.billedMins + ((ceilMins call.duration : ℤ) : ℚ)
    ∧ (b.add_billed_minutes ((ceilMins call.duration : ℤ) : ℚ)).freeMins
        = b.freeMins
    ∧ ceilMins 1 = 1 := by
  refine ⟨?_, rfl, rfl, ceilMins_eq 1 1 (by norm_num) (by norm_num)⟩
  simp only [Contract.bill_call, hb]

/-- A base/MTM-style contract with a bound empty bill. -/
def cBound : Contract := { start := some startDate, bill := some Bill.empty }

/-- Witness for C5: a 1-second call on a bound bill. -/
theorem C5_base_bill_call_ceil_witness :
    Contract.bill_call cBound { duration := 1 }
      = some { cBound with
          bill := some (Bill.empty.add_billed_minutes ((ceilMins 1 : ℤ) : ℚ)) }
    ∧ ceilMins 1 = 1 := by
  have h := C5_base_bill_call_ceil cBound Bill.empty { duration := 1 } rfl
    (by norm_num)
  exact ⟨h.1, h.2.2.2⟩

/-- A Boolean predicate on a number of occurrences: in a duplicate-free list
the unique element satisfying a predicate is counted exactly once. -/
theorem countP_eq_one_of_nodup {α : Type} (q : α → Bool) (a : α) (L : List α)
    (ha : q a = true) (huniq : ∀ b, q b = true → b = a)
    (hL : L.Nodup) (hmem : a ∈ L) : L.countP q = 1 := by
  induction L with
  | nil => simp at hmem
  | cons x xs ih =>
    have hx_notmem : x ∉ xs := (List.nodup_cons.mp hL).1
    have hxs_nodup : xs.Nodup := (List.nodup_cons.mp hL).2
    rw [List.countP_cons]
    rcases List.mem_cons.mp hmem with heq | hx
    · subst heq
      have hzero : xs.countP q = 0 :=
        List.countP_eq_zero.mpr (fun b hb hqb => hx_notmem ((huniq b hqb) ▸ hb))
      rw [hzero, if_pos ha]
    · have hqx : ¬ q x = true := fun hq => hx_notmem ((huniq x hq) ▸ hx)
      rw [ih hxs_nodup hx, if_neg hqx]

/-- Whether `TermContract.new_month` for the cycle `p` charges the 300.00
deposit on top of the 20.00 monthly fee, read off the produced bill. -/
def addsDeposit (c : TermContract) (bill : Bill) (p : ℤ × ℤ) : Bool :=
  decide ((c.new_month p.1 p.2 bill).bill.map Bill.fixedCost
    = some (bill.fixedCost + TERM_DEPOSIT + TERM_MONTHLY_FEE))

/-- Claim C6: `TermContract.new_month` charges the 300.00 deposit iff the
given month/year equal the contract's start month/year; any other cycle
adds only the 20.00 fee; `start` is never modified, so over any
duplicate-free sequence of cycles containing the start cycle the deposit is
charged exactly once. -/
theorem C6_term_deposit_once (c : TermContract) (m y : ℤ) (bill : Bill)
    (L : List (ℤ × ℤ)) (hL : L.Nodup)
    (hmem : (c.start.month, c.start.year) ∈ L) :
    ((c.new_month m y bill).bill.map Bill.fixedCost
        = some (bill.fixedCost + TERM_DEPOSIT + TERM_MONTHLY_FEE)
      ↔ (m = c.start.month ∧ y = c.start.year))
    ∧ (¬(m = c.start.month ∧ y = c.start.year) →
        (c.new_month m y bill).bill.map Bill.fixedCost
          = some (bill.fixedCost + TERM_MONTHLY_FEE))
    ∧ ((c.new_month m y bill).start = c.start)
    ∧ L.countP (addsDeposit c bill) = 1 := by
  have key : ∀ (p : ℤ × ℤ),
      ((c.new_month p.1 p.2 bill).bill.map Bill.fixedCost
        = some (bill.fixedCost + TERM_DEPOSIT + TERM_MONTHLY_FEE))
      ↔ (p.1 = c.start.month ∧ p.2 = c.start.year) := by
    intro p
    by_cases h : p.1 = c.start.month ∧ p.2 = c.start.year
    · simp only [TermContract.new_month, if_pos h, Bill.add_fixed_cost,
        Bill.set_rates, Option.map_some']
      exact iff_of_true trivial h
    · simp only [TermContract.new_month, if_neg h, Bill.add_fixed_cost,
        Bill.set_rates, Option.map_some', Option.some.injEq]
      refine iff_of_false (fun heq => ?_) h
      have h3 : TERM_DEPOSIT = 0 := by linarith
      norm_num [TERM_DEPOSIT] at h3
  refine ⟨key (m, y), fun h => ?_, rfl, ?_⟩
  · simp only [TermContract.new_month, if_neg h, Bill.add_fixed_cost,
      Bill.set_rates, Option.map_some']
  · refine countP_eq_one_of_nodup (addsDeposit c bill)
      (c.start.month, c.start.year) L ?_ ?_ hL hmem
    · simp only [addsDeposit, decide_eq_true_eq]
      exact (key (c.start.month, c.start.year)).mpr ⟨rfl, rfl⟩
    · intro b hb
      simp only [addsDeposit, decide_eq_true_eq] at hb
      have h2 := (key b).mp hb
      exact Prod.ext h2.1 h2.2

/-- Three distinct cycles, the first being `startDate`'s month and year. -/
def cyclesList : List (ℤ × ℤ) := [(1, 2023), (2, 2023), (3, 2023)]

/-- Witness for C6: over cycles Jan-Mar 2023 of a contract started Jan
2023, the deposit is charged exactly once, and the February cycle adds only
the monthly fee. -/
theorem C6_term_deposit_once_witness :
    cyclesList.countP
        (addsDeposit (TermContract.init startDate endDate) Bill.empty) = 1
    ∧ ((TermContract.init startDate endDate).new_month 2 2023
        Bill.empty).bill.map Bill.fixedCost
        = some (Bill.empty.fixedCost + TERM_MONTHLY_FEE) := by
  have h := C6_term_deposit_once (TermContract.init startDate endDate) 2 2023
    Bill.empty cyclesList (by decide) (by decide)
  exact ⟨h.2.2.2, h.2.1 (by decide)⟩

/-- Claim C7: the `PrepaidContract` constructor stores the negation of its
balance argument; constructing with -40 yields internal balance 40, and a
positive (credit) input yields a negative internal balance. -/
theorem C7_prepaid_init_negates (s : Date) (b : ℚ) :
    (PrepaidContract.init s b).balance = -b
    ∧ (PrepaidContract.init s (-40)).balance = 40
    ∧ (0 < b → (PrepaidContract.init s b).balance < 0) := by
  simp only [PrepaidContract.init]
  refine ⟨by ring, by norm_num, fun h => ?_⟩
  nlinarith

/-- Witness for C7: constructing with the positive (credit) input 5 yields
internal balance -5, which is negative. -/
theorem C7_prepaid_init_negates_witness :
    (PrepaidContract.init startDate 5).balance = -5
    ∧ (PrepaidContract.init startDate 5).balance < 0 := by
  have h := C7_prepaid_init_negates startDate 5
  exact ⟨h.1, h.2.2 (by norm_num)⟩

/-! A small operational semantics for `TermContract`, used to state the
`_free` invariant of claim C8: a driver interleaves `new_month` and
`bill_call` calls, starting from a freshly constructed contract. -/

/-- One driver-visible operation on a `TermContract`. -/
inductive TermOp where
  | newMonth (m y : ℤ) (bill : Bill)
  | billCall (call : Call)

/-- Apply one operation (a failed `bill_call` propagates as `none`). -/
def TermContract.stepOp (c : TermContract) : TermOp → Option TermContract
  | TermOp.newMonth m y b => some (c.new_month m y b)
  | TermOp.billCall call => c.bill_call call

/-- Run a list of operations from a state. -/
def TermContract.runOps (c : TermContract) : List TermOp → Option TermContract
  | [] => some c
  | op :: ops => (c.stepOp op).bind (fun c' => c'.runOps ops)

/-- An operation's call has non-negative duration (vacuous for
`new_month`). -/
def TermOp.durOk : TermOp → Prop
  | TermOp.newMonth _ _ _ => True
  | TermOp.billCall call => 0 ≤ call.duration

/-- A single `bill_call` of non-negative duration never increases `_free`
and keeps it non-negative. -/
theorem bill_call_free_le (c c' : TermContract) (call : Call)
    (hd : 0 ≤ call.duration) (hf : 0 ≤ c._free)
    (h : c.bill_call call = some c') : c'._free ≤ c._free ∧ 0 ≤ c'._free := by
  have hmins : (0 : ℚ) ≤ ((ceilMins call.duration : ℤ) : ℚ) := by
    exact_mod_cast ceilMins_nonneg call.duration hd
  rcases hbill : c.bill with _ | b
  · simp [TermContract.bill_call, hbill] at h
  · by_cases hle : ((ceilMins call.duration : ℤ) : ℚ) ≤ c._free
    · simp only [TermContract.bill_call, hbill, if_pos hle,
        Option.some.injEq] at h
      subst h
      constructor
      · simp only
        linarith
      · simp only
        linarith
    · simp only [TermContract.bill_call, hbill, if_neg hle,
        Option.some.injEq] at h
      subst h
      exact ⟨hf, le_refl 0⟩

/-- The `_free` bounds are preserved by any run of operations with
non-negative call durations. -/
theorem runOps_free_bounds (ops : List TermOp) (c c' : TermContract)
    (hc : 0 ≤ c._free ∧ c._free ≤ TERM_MINS)
    (hops : ∀ op ∈ ops, op.durOk)
    (hrun : c.runOps ops = some c') :
    0 ≤ c'._free ∧ c'._free ≤ TERM_MINS := by
  induction ops generalizing c with
  | nil =>
    simp only [TermContract.runOps, Option.some.injEq] at hrun
    exact hrun ▸ hc
  | cons op ops ih =>
    simp only [TermContract.runOps] at hrun
    rcases Option.bind_eq_some.mp hrun with ⟨c1, h1, h2⟩
    have hops' : ∀ op ∈ ops, op.durOk := fun o ho =>
      hops o (List.mem_cons_of_mem op ho)
    cases op with
    | newMonth m y b =>
      simp only [TermContract.stepOp, Option.some.injEq] at h1
      refine ih c1 ?_ hops' h2
      have : c1._free = TERM_MINS := h1 ▸ rfl
      rw [this]
      norm_num [TERM_MINS]
    | billCall call =>
      simp only [TermContract.stepOp] at h1
      have hdur : 0 ≤ call.duration := hops (TermOp.billCall call)
        (List.mem_cons_self _ _)
      have hb := bill_call_free_le c c1 call hdur hc.1 h1
      exact ih c1 ⟨hb.2, le_trans hb.1 hc.2⟩ hops' h2

/-- Claim C8: starting from a freshly constructed `TermContract`, under any
sequence of `new_month`/`bill_call` operations whose calls have
non-negative durations, `_free` stays in [0, 100]; every `new_month` resets
it to 100, and every successful `bill_call` from a non-negative `_free`
leaves it unchanged or decreases it. -/
theorem C8_free_invariant (s e : Date) (ops : List TermOp)
    (c : TermContract) (hops : ∀ op ∈ ops, op.durOk)
    (hrun : (TermContract.init s e).runOps ops = some c) :
    (0 ≤ c._free ∧ c._free ≤ 100)
    ∧ (∀ (c0 : TermContract) (m y : ℤ) (b : Bill),
        (c0.new_month m y b)._free = 100)
    ∧ (∀ (c0 c1 : TermContract) (call : Call), 0 ≤ call.duration →
        0 ≤ c0._free → c0.bill_call call = some c1 → c1._free ≤ c0._free) := by
  have hmins : TERM_MINS = 100 := rfl
  refine ⟨?_, fun c0 m y b => rfl, fun c0 c1 call hd hf h =>
    (bill_call_free_le c0 c1 call hd hf h).1⟩
  have h := runOps_free_bounds ops (TermContract.init s e) c
    ⟨by norm_num [TermContract.init, TERM_MINS],
     by norm_num [TermContract.init, TERM_MINS]⟩ hops hrun
  exact ⟨h.1, hmins ▸ h.2⟩

/-- Witness for C8: one `new_month` from a fresh contract leaves `_free`
within [0, 100]. -/
theorem C8_free_invariant_witness :
    0 ≤ ((TermContract.init startDate endDate).new_month 1 2023
        Bill.empty)._free
    ∧ ((TermContract.init startDate endDate).new_month 1 2023
        Bill.empty)._free ≤ 100 :=
  (C8_free_invariant startDate endDate [TermOp.newMonth 1 2023 Bill.empty] _
    (by intro op h; simp at h; subst h; trivial) rfl).1

/-- Claim C9: the base `Contract.cancel_contract` (inherited by
`MTMContract`) clears the `start` field as a termination marker and returns
exactly the bound bill's total cost, with no deposit or refund
adjustment. -/
theorem C9_base_cancel_clears_start (c : Contract) (b : Bill)
    (hb : c.bill = some b) :
    Contract.cancel_contract c = some (b.get_cost, { c with start := none })
    ∧ (Contract.cancel_contract c).map (fun r => r.2.start) = some none
    ∧ (Contract.cancel_contract c).map (fun r => r.1) = some b.get_cost := by
  simp [Contract.cancel_contract, hb]

/-- Witness for C9: cancelling a bound base contract clears `start` and
owes the bill's cost. -/
theorem C9_base_cancel_clears_start_witness :
    Contract.cancel_contract cBound
      = some (Bill.empty.get_cost, { cBound with start := none }) :=
  (C9_base_cancel_clears_start cBound Bill.empty rfl).1

/-- Claim C10: the overriding `cancel_contract` of `TermContract` and of
`PrepaidContract` leave the whole contract state — in particular the
`start` field — unchanged: there is no termination marker for these two
variants. -/
theorem C10_cancel_overrides_keep_start (ct : TermContract)
    (pc : PrepaidContract) :
    (∀ (r : ℚ) (ct' : TermContract),
      ct.cancel_contract = some (r, ct') → ct' = ct ∧ ct'.start = ct.start)
    ∧ pc.cancel_contract.2 = pc
    ∧ pc.cancel_contract.2.start = pc.start := by
  refine ⟨fun r ct' h => ?_, rfl, rfl⟩
  rcases hbill : ct.bill with _ | b <;>
    rcases hm : ct._curr_month with _ | m <;>
      rcases hy : ct._curr_year with _ | y <;>
        simp [TermContract.cancel_contract, hbill, hm, hy] at h
  split at h <;>
    simp only [Option.some.injEq, Prod.mk.injEq] at h <;>
      exact ⟨h.2.symm, by rw [h.2.symm]⟩

/-- A term contract past its end month (December 2023), cancelled in
January 2024: the year is at or past the end year but the month is not
strictly greater, so the full cost is owed and the state is untouched. -/
def tcPastEnd : TermContract :=
  { start := startDate, bill := some Bill.empty,
    end_date := { year := 2023, month := 12, day := 31 }, _free := 100,
    _curr_month := some 1, _curr_year := some 2024 }

/-- Witness for C10: cancelling `tcPastEnd` and the prepaid `pcDebt` leaves
their states (and `start` fields) unchanged. -/
theorem C10_cancel_overrides_keep_start_witness :
    tcPastEnd.cancel_contract = some (Bill.empty.get_cost, tcPastEnd)
    ∧ tcPastEnd.cancel_contract.map (fun r => r.2) = some tcPastEnd
    ∧ pcDebt.cancel_contract.2 = pcDebt := by
  have hcan : tcPastEnd.cancel_contract
      = some (Bill.empty.get_cost, tcPastEnd) := by
    simp only [TermContract.cancel_contract, tcPastEnd]
    rw [if_neg (by norm_num)]
  have h := C10_cancel_overrides_keep_start tcPastEnd pcDebt
  have h1 := (h.1 Bill.empty.get_cost tcPastEnd hcan).1
  refine ⟨hcan, ?_, h.2.1⟩
  rw [hcan]
  exact congrArg some h1
